import Mathlib

/-!
Shallow embedding of the context-marketplace repository core
(`app/models.py`, `app/services.py`, and the relevant route handlers of
`app/main.py`) together with theorems settling the specification claims.

Timestamps are abstracted as natural numbers: every operation that calls
`datetime.now()` in the source receives the current instant as an explicit
`now` parameter.  The in-memory context dict and the on-disk write-through
storage are modelled as insertion-ordered association lists.  All GitHub
network calls are modelled by an explicit environment of response functions,
and the publish workflow additionally records the trace of API calls it
performs.
-/

namespace ContextMarketplace

/-- Abstract timestamp standing for a Python `datetime` value. -/
abbrev Time := Nat

/-- `ContextFileType` enum from `app/models.py`. -/
inductive ContextFileType
  | stack
  | business
  | people
  | guidelines
  | custom
  deriving DecidableEq

/-- `ContextFile` model from `app/models.py`. -/
structure ContextFile where
  name : String
  file_type : ContextFileType
  content : String
  created_at : Time
  updated_at : Time
  deriving DecidableEq

/-- `GitHubRepo` model from `app/models.py`.  The language map (a Python
dict) is modelled as an insertion-ordered association list. -/
structure GitHubRepo where
  owner : String
  name : String
  full_name : String
  description : Option String := none
  url : String
  clone_url : String
  default_branch : String := "main"
  language : Option String := none
  languages : Option (List (String × Nat)) := none
  deriving DecidableEq

/-- `GitHubContributor` model from `app/models.py`. -/
structure GitHubContributor where
  login : String
  id : Nat
  avatar_url : String
  name : Option String := none
  email : Option String := none
  bio : Option String := none
  pronouns : Option String := none
  company : Option String := none
  website : Option String := none
  location : Option String := none
  twitter_username : Option String := none
  public_repos : Option Nat := none
  followers : Option Nat := none
  following : Option Nat := none
  created_at : Option String := none
  hireable : Option Bool := none
  contributions : Nat
  selected : Bool := false
  deriving DecidableEq

/-- `Context` model from `app/models.py`. -/
structure Context where
  id : String
  name : String
  description : Option String := none
  owner_id : Nat
  owner_login : String
  github_repo : Option GitHubRepo := none
  files : List ContextFile := []
  contributors : List GitHubContributor := []
  is_public : Bool := true
  created_at : Time
  updated_at : Time
  deriving DecidableEq

/-- `CreateContextRequest` model from `app/models.py`; `is_public`
defaults to `true` exactly as the pydantic field does. -/
structure CreateContextRequest where
  name : String
  description : Option String := none
  github_repo_url : Option String := none
  is_public : Bool := true
  deriving DecidableEq

/-- `UpdateContextRequest` model from `app/models.py`. -/
structure UpdateContextRequest where
  name : Option String := none
  description : Option String := none
  is_public : Option Bool := none
  deriving DecidableEq

/-- `UpdateContextFileRequest` model from `app/models.py`. -/
structure UpdateContextFileRequest where
  content : String
  deriving DecidableEq

/-- `CreateContextFileRequest` model from `app/models.py`. -/
structure CreateContextFileRequest where
  name : String
  file_type : ContextFileType
  content : String
  deriving DecidableEq

/-- Python truthiness of an optional string: `None` and `""` are falsy. -/
def pyTruthy : Option String → Bool
  | none => false
  | some s => !(s == "")

/-- Python truthiness of an optional boolean: only `True` is truthy. -/
def pyTruthyBool : Option Bool → Bool
  | some b => b
  | none => false

/-- The string sitting inside an optional value (used only under a
truthiness guard, where the value is known to be present). -/
def getStr (o : Option String) : String := o.getD ("")

/-- `str.startswith(pre)`, computed over the character list. -/
def strStartsWith (s pre : String) : Bool := pre.data.isPrefixOf s.data

/-- `str.endswith(post)`, computed over the character list. -/
def strEndsWith (s post : String) : Bool := post.data.isSuffixOf s.data

/-- Drop the last `n` characters, computed over the character list. -/
def strDropRight (s : String) (n : Nat) : String := ⟨s.data.take (s.data.length - n)⟩

/-- Insertion-ordered dict update: replace in place if the key exists,
otherwise append (Python `d[k] = v`). -/
def dictInsert (k : String) (v : α) : List (String × α) → List (String × α)
  | [] => [(k, v)]
  | (k', v') :: rest => if k' = k then (k, v) :: rest else (k', v') :: dictInsert k v rest

/-- Dict lookup (Python `d.get(k)`). -/
def dictGet (k : String) : List (String × α) → Option α
  | [] => none
  | (k', v) :: rest => if k' = k then some v else dictGet k rest

/-- The on-disk directory written for one context by `_save_context`:
a metadata artifact holding the whole context, and one artifact per file.
Artifacts of removed files are not deleted by the source, so they stay. -/
structure SavedDir where
  metadata : Context
  fileArtifacts : List (String × String)
  deriving DecidableEq

/-- State of `ContextService`: the in-memory context dict plus the
write-through durable storage, one directory per context id. -/
structure Store where
  contexts : List (String × Context) := []
  storage : List (String × SavedDir) := []
  deriving DecidableEq

/-- Effect of `_save_context` on one context's directory: the metadata is
overwritten with the context and every current file is (re)written; stale
artifacts of files no longer in the context are left in place. -/
def saveContextDir (old : Option SavedDir) (ctx : Context) : SavedDir :=
  { metadata := ctx,
    fileArtifacts :=
      ctx.files.foldl (fun acc f => dictInsert f.name f.content acc)
        ((old.map SavedDir.fileArtifacts).getD []) }

/-- `ContextService._save_context`. -/
def save_context (s : Store) (ctx : Context) : Store :=
  { s with storage := dictInsert ctx.id (saveContextDir (dictGet ctx.id s.storage) ctx) s.storage }

/-- `ContextService.get_context`. -/
def get_context (s : Store) (context_id : String) : Option Context :=
  dictGet context_id s.contexts

/-- `ContextService.get_context_by_repo_url`: first context of this owner
whose linked repository descriptor carries exactly this URL. -/
def get_context_by_repo_url (s : Store) (user_id : Nat) (repo_url : String) : Option Context :=
  (s.contexts.map Prod.snd).find? fun ctx =>
    ctx.owner_id == user_id &&
      (match ctx.github_repo with
       | some repo => repo.url == repo_url
       | none => false)

/-- `ContextService.create_context`.  `freshId` stands for the value of
`str(uuid.uuid4())` and `now` for `datetime.now()`.  The duplicate check
runs only when `request.github_repo_url` is truthy, as in the source. -/
def create_context (s : Store) (user_id : Nat) (user_login : String)
    (request : CreateContextRequest) (freshId : String) (now : Time) :
    Except String (Context × Store) :=
  if pyTruthy request.github_repo_url &&
      (get_context_by_repo_url s user_id (getStr request.github_repo_url)).isSome then
    .error ("Context already exists for repository: " ++ request.name)
  else
    let context : Context :=
      { id := freshId, name := request.name, description := request.description,
        owner_id := user_id, owner_login := user_login, github_repo := none,
        files := [], contributors := [], is_public := request.is_public,
        created_at := now, updated_at := now }
    let s1 : Store := { s with contexts := dictInsert freshId context s.contexts }
    .ok (context, save_context s1 context)

/-- `ContextService.update_context`: only supplied fields change,
`updated_at` is always bumped, and the context is persisted. -/
def update_context (s : Store) (context_id : String) (request : UpdateContextRequest)
    (now : Time) : Option Context × Store :=
  match dictGet context_id s.contexts with
  | none => (none, s)
  | some ctx =>
    let ctx' : Context :=
      { ctx with
        name := request.name.getD ctx.name,
        description := match request.description with
          | some d => some d
          | none => ctx.description,
        is_public := request.is_public.getD ctx.is_public,
        updated_at := now }
    let s1 : Store := { s with contexts := dictInsert context_id ctx' s.contexts }
    (some ctx', save_context s1 ctx')

/-- `ContextService.add_file_to_context`: any existing file with the same
name is filtered out, then the new file is appended. -/
def add_file_to_context (s : Store) (context_id : String)
    (request : CreateContextFileRequest) (now : Time) : Option ContextFile × Store :=
  match dictGet context_id s.contexts with
  | none => (none, s)
  | some ctx =>
    let file_obj : ContextFile :=
      { name := request.name, file_type := request.file_type,
        content := request.content, created_at := now, updated_at := now }
    let ctx' : Context :=
      { ctx with
        files := (ctx.files.filter fun f => f.name != request.name) ++ [file_obj],
        updated_at := now }
    let s1 : Store := { s with contexts := dictInsert context_id ctx' s.contexts }
    (some file_obj, save_context s1 ctx')

/-- The in-place mutation loop of `ContextService.update_context_file`:
update the first file with the given name, leaving everything else where
it is; `none` when no file matches. -/
def updateFileInList (files : List ContextFile) (file_name content : String)
    (now : Time) : Option (ContextFile × List ContextFile) :=
  match files with
  | [] => none
  | f :: rest =>
    if f.name == file_name then
      let f' := { f with content := content, updated_at := now }
      some (f', f' :: rest)
    else
      match updateFileInList rest file_name content now with
      | none => none
      | some (r, rest') => some (r, f :: rest')

/-- `ContextService.update_context_file`. -/
def update_context_file (s : Store) (context_id file_name : String)
    (request : UpdateContextFileRequest) (now : Time) : Option ContextFile × Store :=
  match dictGet context_id s.contexts with
  | none => (none, s)
  | some ctx =>
    match updateFileInList ctx.files file_name request.content now with
    | none => (none, s)
    | some (f', files') =>
      let ctx' : Context := { ctx with files := files', updated_at := now }
      let s1 : Store := { s with contexts := dictInsert context_id ctx' s.contexts }
      (some f', save_context s1 ctx')

/-- `ContextService.remove_file_from_context`.  The filtered list is
assigned in both branches, as in the source (the assignment happens before
the length comparison); `updated_at` is bumped and the context persisted
only when a file was actually removed. -/
def remove_file_from_context (s : Store) (context_id file_name : String)
    (now : Time) : Bool × Store :=
  match dictGet context_id s.contexts with
  | none => (false, s)
  | some ctx =>
    let files' := ctx.files.filter fun f => f.name != file_name
    if files'.length < ctx.files.length then
      let ctx' : Context := { ctx with files := files', updated_at := now }
      let s1 : Store := { s with contexts := dictInsert context_id ctx' s.contexts }
      (true, save_context s1 ctx')
    else
      (false, { s with contexts := dictInsert context_id { ctx with files := files' } s.contexts })

/-- `ContextService.set_context_repo`. -/
def set_context_repo (s : Store) (context_id : String) (github_repo : GitHubRepo)
    (now : Time) : Option Context × Store :=
  match dictGet context_id s.contexts with
  | none => (none, s)
  | some ctx =>
    let ctx' : Context := { ctx with github_repo := some github_repo, updated_at := now }
    let s1 : Store := { s with contexts := dictInsert context_id ctx' s.contexts }
    (some ctx', save_context s1 ctx')

/-- `ContextService.set_context_contributors`. -/
def set_context_contributors (s : Store) (context_id : String)
    (contributors : List GitHubContributor) (now : Time) : Option Context × Store :=
  match dictGet context_id s.contexts with
  | none => (none, s)
  | some ctx =>
    let ctx' : Context := { ctx with contributors := contributors, updated_at := now }
    let s1 : Store := { s with contexts := dictInsert context_id ctx' s.contexts }
    (some ctx', save_context s1 ctx')

/-- The fixed placeholder sections of the stack document
(`_generate_stack_content`). -/
def stackPlaceholders : String :=
  "## Frameworks & Libraries\n_Add frameworks and libraries used in this project_\n\n"
  ++ "## Tools & Services\n_Add development tools, CI/CD, and services used_\n\n"
  ++ "## Architecture\n_Describe the high-level architecture of the project_\n"

/-- `ContextService._generate_stack_content`.  The language section is
emitted only when a repository is linked and its language map is truthy
(present and non-empty); the keys are listed in sorted order. -/
def generate_stack_content (ctx : Context) : String :=
  "# Technology Stack\n\n"
  ++ (match ctx.github_repo with
      | some repo =>
        match repo.languages with
        | some langs =>
          if langs.isEmpty then ("")
          else
            "## Languages\n"
            ++ String.join ((List.insertionSort (· ≤ ·) (langs.map Prod.fst)).map
                 fun lang => "- **" ++ lang ++ "**\n")
            ++ "\n"
        | none => ""
      | none => "")
  ++ stackPlaceholders

/-- The block emitted for one selected contributor inside the loop of
`ContextService._generate_people_content`: display name, profile link,
then one line per truthy optional field, in source order. -/
def contribEntry (c : GitHubContributor) : String :=
  "### " ++ (if pyTruthy c.name then getStr c.name else c.login) ++ "\n"
  ++ "- **GitHub**: [@" ++ c.login ++ "](https://github.com/" ++ c.login ++ ")\n"
  ++ (if pyTruthy c.pronouns then ("- **Pronouns**: ") ++ getStr c.pronouns ++ "\n" else (""))
  ++ (if pyTruthy c.bio then ("- **Bio**: ") ++ getStr c.bio ++ "\n" else (""))
  ++ (if pyTruthy c.company then ("- **Company**: ") ++ getStr c.company ++ "\n" else (""))
  ++ (if pyTruthy c.location then ("- **Location**: ") ++ getStr c.location ++ "\n" else (""))
  ++ (if pyTruthy c.website then
        "- **Website**: [" ++ getStr c.website ++ "]("
        ++ (if strStartsWith (getStr c.website) ("http://")
              || strStartsWith (getStr c.website) ("https://") then getStr c.website
            else ("https://") ++ getStr c.website)
        ++ ")\n"
      else (""))
  ++ (if pyTruthy c.email then ("- **Email**: ") ++ getStr c.email ++ "\n" else (""))
  ++ (if pyTruthy c.twitter_username then
        "- **Twitter**: [@" ++ getStr c.twitter_username ++ "](https://twitter.com/"
        ++ getStr c.twitter_username ++ ")\n"
      else (""))
  ++ (if pyTruthyBool c.hireable then ("- **Available for hire**: Yes\n") else (""))
  ++ "\n"

/-- The fixed placeholder sections of the people document. -/
def peoplePlaceholders : String :=
  "## Team Roles\n_Define roles and responsibilities_\n\n"
  ++ "## Contact Information\n_Add relevant contact information_\n"

/-- Body of `ContextService._generate_people_content`, which reads only
the contributor list of the context. -/
def generate_people_content_of (contributors : List GitHubContributor) : String :=
  "# People\n\n"
  ++ (if contributors.isEmpty then ("")
      else ("## Contributors\n")
        ++ String.join (contributors.map fun c => if c.selected then contribEntry c else ("")))
  ++ peoplePlaceholders

/-- `ContextService._generate_people_content`. -/
def generate_people_content (ctx : Context) : String :=
  generate_people_content_of ctx.contributors

/-- The in-place mutation loop of `toggle_contributor_selection`: flip the
`selected` flag of the first contributor with the given login. -/
def flipFirst (login : String) : List GitHubContributor → List GitHubContributor
  | [] => []
  | c :: rest =>
    if c.login == login then { c with selected := !c.selected } :: rest
    else c :: flipFirst login rest

/-- Route handler `toggle_contributor_selection` from `app/main.py`:
404 when the context or the contributor is absent, 403 when the requester
is not the owner; otherwise flip the first matching contributor's flag,
persist, regenerate the people document from the updated context and
overwrite `people.md` through `update_context_file`. -/
def toggle_contributor_selection (s : Store) (context_id login : String)
    (user_id : Nat) (now : Time) : Except (Nat × String) Store :=
  match get_context s context_id with
  | none => .error (404, "Context not found")
  | some ctx =>
    if user_id != ctx.owner_id then .error (403, "Access denied")
    else if ctx.contributors.all (fun c => c.login != login) then
      .error (404, "Contributor not found")
    else
      let ctx1 : Context := { ctx with contributors := flipFirst login ctx.contributors }
      let s1 : Store := { s with contexts := dictInsert context_id ctx1 s.contexts }
      let s2 := save_context s1 ctx1
      let people_content := generate_people_content ctx1
      .ok (update_context_file s2 context_id ("people.md") { content := people_content } now).2

/-- One GitHub REST call made by the publish workflow, as recorded in its
trace. -/
inductive ApiCall
  | reposGet (owner repo : String)
  | langGet (owner repo : String)
  | refGet (owner repo branch : String)
  | createRef (owner repo branch sha : String)
  | putFile (owner repo path branch : String)
  | prCreate (owner repo head base : String)
  deriving DecidableEq

/-- Response payload of `GET /repos/{owner}/{repo}` as consumed by the
source. -/
structure RepoData where
  owner_login : String
  name : String
  full_name : String
  description : Option String := none
  html_url : String
  clone_url : String
  default_branch : String
  language : Option String := none
  deriving DecidableEq

/-- Responses of the GitHub REST API, one function per endpoint the source
calls.  `none` / `false` / `.error` stand for any non-success status or
transport failure. -/
structure GitHubEnv where
  reposGet : String → String → Option RepoData
  langGet : String → String → Option (List (String × Nat))
  refGet : String → String → String → Option String
  createRef : String → String → String → String → Bool
  putFile : String → String → String → String → Nat
  prCreate : String → String → String → String → Except String String

/-- Separator accepted between `github.com` and the owner segment in
`GitHubService.get_repo_info`'s URL pattern. -/
def sepOk (c : Char) : Bool := c == ':' || c == '/'

/-- Split the tail after the separator into owner and repo segments: the
owner runs to the only slash, the repo segment may not contain one, and
both must be non-empty. -/
def splitOwnerRepo (l : List Char) : Option (String × String) :=
  let owner := l.takeWhile fun c => c != '/'
  match l.dropWhile (fun c => c != '/') with
  | '/' :: repo0 =>
    if owner.isEmpty || repo0.isEmpty || repo0.any (fun c => c == '/') then none
    else some (String.mk owner, String.mk repo0)
  | _ => none

/-- Leftmost-match scan for `github.com[:/]owner/repo` against the end of
the URL, mirroring `re.search` with the source's end-anchored pattern. -/
def scanGH : List Char → Option (String × String)
  | [] => none
  | c :: rest =>
    match
      (if ("github.com".data).isPrefixOf (c :: rest) then
        match (c :: rest).drop 10 with
        | sep :: tail => if sepOk sep then splitOwnerRepo tail else none
        | [] => none
      else none) with
    | some p => some p
    | none => scanGH rest

/-- The non-greedy repo group drops one trailing `.git` suffix, except
when the whole segment is `.git` (the group must stay non-empty). -/
def stripRepoSuffix (repo0 : String) : String :=
  if strEndsWith repo0 (".git") && repo0.data.length > 4 then strDropRight repo0 4
  else repo0

/-- The URL pattern of `GitHubService.get_repo_info`: an optional single
trailing slash is dropped, then the string must end with
`github.com[:/]owner/repo` with an optional `.git` suffix on the repo. -/
def parseGitHubUrl (repo_url : String) : Option (String × String) :=
  let s := if strEndsWith repo_url ("/") then strDropRight repo_url 1 else repo_url
  match scanGH s.data with
  | some (owner, repo0) => some (owner, stripRepoSuffix repo0)
  | none => none

/-- `GitHubService.get_repo_info`: parse the URL, fetch the repository
descriptor, best-effort fetch the language map (failures degrade to an
empty map).  Returns the descriptor (or `none` on any failure) paired with
the trace of API calls made. -/
def get_repo_info (env : GitHubEnv) (repo_url : String) :
    Option GitHubRepo × List ApiCall :=
  match parseGitHubUrl repo_url with
  | none => (none, [])
  | some (owner, repo) =>
    match env.reposGet owner repo with
    | none => (none, [.reposGet owner repo])
    | some rd =>
      let languages := (env.langGet owner repo).getD []
      (some { owner := rd.owner_login, name := rd.name, full_name := rd.full_name,
              description := rd.description, url := rd.html_url,
              clone_url := rd.clone_url, default_branch := rd.default_branch,
              language := rd.language, languages := some languages },
       [.reposGet owner repo, .langGet owner repo])

/-- `GitHubService.create_context_pr`.  `ts` stands for the
`datetime.now().strftime(...)` suffix of the branch name.  Per-file write
failures are ignored (only warned about) while repository read, branch
creation and pull-request creation failures are fatal; the surrounding
`except` re-wraps every failure message. -/
def create_context_pr (env : GitHubEnv) (owner repo : String) (ctx : Context)
    (user_login ts : String) : Except String String × List ApiCall :=
  match env.reposGet owner repo with
  | none =>
    (.error ("Failed to create pull request: Could not access repository"),
     [.reposGet owner repo])
  | some rd =>
    let default_branch := rd.default_branch
    match env.refGet owner repo default_branch with
    | none =>
      (.error ("Failed to create pull request: Could not get default branch reference"),
       [.reposGet owner repo, .refGet owner repo default_branch])
    | some latest_sha =>
      let branch_name := "context-" ++ ((ctx.name.toLower).replace (" ") ("-")) ++ "-" ++ ts
      if env.createRef owner repo branch_name latest_sha then
        let fileCalls := ctx.files.map fun f =>
          ApiCall.putFile owner repo (".context/" ++ f.name) branch_name
        let lead := [ApiCall.reposGet owner repo, .refGet owner repo default_branch,
                     .createRef owner repo branch_name latest_sha] ++ fileCalls
        match env.prCreate owner repo branch_name default_branch with
        | .error msg =>
          (.error ("Failed to create pull request: Could not create PR: " ++ msg),
           lead ++ [.prCreate owner repo branch_name default_branch])
        | .ok url =>
          (.ok url, lead ++ [.prCreate owner repo branch_name default_branch])
      else
        (.error ("Failed to create pull request: Could not create branch"),
         [.reposGet owner repo, .refGet owner repo default_branch,
          .createRef owner repo branch_name latest_sha])

/-- Route handler `create_pull_request` from `app/main.py`: 404 when the
context is absent, 400 when it has no linked repository; then the
prerequisite repository read via `get_repo_info`, whose failure aborts the
operation (the inner 404 is re-wrapped as a 500 by the handler's catch-all,
as in the source); only then is `create_context_pr` invoked. -/
def create_pull_request (env : GitHubEnv) (s : Store) (context_id : String)
    (user_login ts : String) : Except (Nat × String) String × List ApiCall :=
  match get_context s context_id with
  | none => (.error (404, "Context not found"), [])
  | some ctx =>
    match ctx.github_repo with
    | none => (.error (400, "Context is not connected to a GitHub repository"), [])
    | some repo =>
      match get_repo_info env repo.url with
      | (none, tr) =>
        (.error (500, "Error creating pull request: 404: Repository not found or not accessible"), tr)
      | (some info, tr) =>
        match create_context_pr env info.owner info.name ctx user_login ts with
        | (.error e, tr2) => (.error (500, "Error creating pull request: " ++ e), tr ++ tr2)
        | (.ok url, tr2) => (.ok url, tr ++ tr2)

/-- Error observer for `Except` results. -/
def isErr : Except ε α → Bool
  | .error _ => true
  | .ok _ => false

/-- The spec's notion of a non-empty optional text field: present and not
the empty string. -/
def nonEmptyStr (o : Option String) : Prop := o ≠ none ∧ o ≠ some ("")

instance (o : Option String) : Decidable (nonEmptyStr o) :=
  inferInstanceAs (Decidable (o ≠ none ∧ o ≠ some ("")))

/-- Modelled from the spec's wording of the people document (§4.2): a
subsection with display name (name, else login), a profile link, one line
per non-empty optional field in the fixed order, a hire line exactly when
the hireable flag is set to true, and a website link whose target gains an
`https://` scheme when the raw value has none while the label keeps the
raw value. -/
def contribEntrySpec (c : GitHubContributor) : String :=
  "### " ++ (if nonEmptyStr c.name then getStr c.name else c.login) ++ "\n"
  ++ "- **GitHub**: [@" ++ c.login ++ "](https://github.com/" ++ c.login ++ ")\n"
  ++ (if nonEmptyStr c.pronouns then ("- **Pronouns**: ") ++ getStr c.pronouns ++ "\n" else (""))
  ++ (if nonEmptyStr c.bio then ("- **Bio**: ") ++ getStr c.bio ++ "\n" else (""))
  ++ (if nonEmptyStr c.company then ("- **Company**: ") ++ getStr c.company ++ "\n" else (""))
  ++ (if nonEmptyStr c.location then ("- **Location**: ") ++ getStr c.location ++ "\n" else (""))
  ++ (if nonEmptyStr c.website then
        "- **Website**: [" ++ getStr c.website ++ "]("
        ++ (if strStartsWith (getStr c.website) ("http://")
              || strStartsWith (getStr c.website) ("https://") then getStr c.website
            else ("https://") ++ getStr c.website)
        ++ ")\n"
      else (""))
  ++ (if nonEmptyStr c.email then ("- **Email**: ") ++ getStr c.email ++ "\n" else (""))
  ++ (if nonEmptyStr c.twitter_username then
        "- **Twitter**: [@" ++ getStr c.twitter_username ++ "](https://twitter.com/"
        ++ getStr c.twitter_username ++ ")\n"
      else (""))
  ++ (if c.hireable = some true then ("- **Available for hire**: Yes\n") else (""))
  ++ "\n"

/-- The update prescribed by the claim on `update_context`: exactly the
supplied fields change, `updated_at` becomes the fresh timestamp, every
other field is kept. -/
def updateContextSpec (ctx : Context) (request : UpdateContextRequest) (now : Time) : Context :=
  { ctx with
    name := request.name.getD ctx.name,
    description := match request.description with
      | some d => some d
      | none => ctx.description,
    is_public := request.is_public.getD ctx.is_public,
    updated_at := now }

/-- One mutating Context Store operation, with its arguments and the
instant at which it runs. -/
inductive StoreOp
  | addFileOp (context_id : String) (request : CreateContextFileRequest) (now : Time)
  | updateFileOp (context_id file_name : String) (request : UpdateContextFileRequest) (now : Time)
  | removeFileOp (context_id file_name : String) (now : Time)
  | updateCtxOp (context_id : String) (request : UpdateContextRequest) (now : Time)
  | setRepoOp (context_id : String) (repo : GitHubRepo) (now : Time)
  | setContribsOp (context_id : String) (cs : List GitHubContributor) (now : Time)

/-- Run one store operation, keeping only the resulting state. -/
def applyOp (s : Store) : StoreOp → Store
  | .addFileOp cid req now => (add_file_to_context s cid req now).2
  | .updateFileOp cid fn req now => (update_context_file s cid fn req now).2
  | .removeFileOp cid fn now => (remove_file_from_context s cid fn now).2
  | .updateCtxOp cid req now => (update_context s cid req now).2
  | .setRepoOp cid repo now => (set_context_repo s cid repo now).2
  | .setContribsOp cid cs now => (set_context_contributors s cid cs now).2

/-- Run a sequence of store operations. -/
def applyOps (s : Store) (ops : List StoreOp) : Store := ops.foldl applyOp s

/-- A context's files have pairwise distinct names. -/
def filesNodup (ctx : Context) : Prop := (ctx.files.map ContextFile.name).Nodup

/-- Every context held by the store has pairwise distinct file names. -/
def storeInv (s : Store) : Prop := ∀ p ∈ s.contexts, filesNodup p.2

/-- Content of a named file of a stored context, as an outside observer
reads it. -/
def storedFileContent (s : Store) (context_id file_name : String) : Option String :=
  (get_context s context_id).bind fun ctx =>
    (ctx.files.find? fun f => f.name == file_name).map ContextFile.content

/-- All files of a stored context other than the people document. -/
def otherFilesOf (s : Store) (context_id : String) : Option (List ContextFile) :=
  (get_context s context_id).map fun ctx => ctx.files.filter fun f => f.name != "people.md"

/-- `true` on every API call except branch creation. -/
def noBranchCall : ApiCall → Bool
  | .createRef _ _ _ _ => false
  | _ => true

/-! ### Concrete instances used by witnesses and counterexamples -/

/-- A custom file with fixed timestamps. -/
def demoFile (n content : String) : ContextFile :=
  { name := n, file_type := .custom, content := content, created_at := 0, updated_at := 0 }

/-- A minimal contributor snapshot. -/
def demoContrib : GitHubContributor :=
  { login := "alice", id := 1, avatar_url := "https://example.com/a.png", contributions := 3 }

/-- A fresh-request demo store: empty. -/
def emptyStore : Store := {}

/-- Context whose stored people document was hand-edited and is stale with
respect to its contributor list. -/
def c5StaleCtx : Context :=
  { id := "c1", name := "Foo", owner_id := 1, owner_login := "alice",
    files := [{ name := "people.md", file_type := .people, content := "custom notes",
                created_at := 0, updated_at := 0 }],
    contributors := [demoContrib], created_at := 0, updated_at := 0 }

/-- Store holding the stale context. -/
def c5StaleStore : Store := { contexts := [("c1", c5StaleCtx)] }

/-- One toggle of alice's selection on context `c1`, keeping the state
(and falling back to the input state on error). -/
def c5Step (now : Time) (s : Store) : Store :=
  ((toggle_contributor_selection s ("c1") "alice" 1 now).toOption).getD s

/-- Context whose stored people document equals the freshly generated
people content for its current contributor list. -/
def c5FreshCtx : Context :=
  { id := "c1", name := "Foo", owner_id := 1, owner_login := "alice",
    files := [demoFile ("stack.md") "stack text",
              { name := "people.md", file_type := .people,
                content := generate_people_content_of [demoContrib],
                created_at := 0, updated_at := 0 }],
    contributors := [demoContrib], created_at := 0, updated_at := 0 }

/-- Store holding the freshly generated context. -/
def c5FreshStore : Store := { contexts := [("c1", c5FreshCtx)] }

/-- Demo context with two files, for the file-operation witnesses. -/
def twoFileCtx : Context :=
  { id := "c1", name := "Foo", owner_id := 1, owner_login := "alice",
    files := [demoFile ("a.md") "one", demoFile ("b.md") "two"],
    created_at := 0, updated_at := 0 }

/-- Store holding the two-file context. -/
def twoFileStore : Store := { contexts := [("c1", twoFileCtx)] }

/-- Demo repository descriptor. -/
def demoRepo : GitHubRepo :=
  { owner := "octo", name := "proj", full_name := "octo/proj",
    url := "https://github.com/octo/proj",
    clone_url := "https://github.com/octo/proj.git", default_branch := "main",
    languages := some [("Python", 50), ("Go", 100)] }

/-- Context linked to the demo repository. -/
def linkedCtx : Context :=
  { id := "c1", name := "Foo", owner_id := 1, owner_login := "alice",
    github_repo := some demoRepo,
    files := [demoFile ("a.md") "one"], created_at := 0, updated_at := 0 }

/-- Store holding the linked context. -/
def linkedStore : Store := { contexts := [("c1", linkedCtx)] }

/-- Context with a linked repository but no language data. -/
def noLangCtx : Context :=
  { id := "c2", name := "Bar", owner_id := 1, owner_login := "alice",
    github_repo := none, created_at := 0, updated_at := 0 }

/-- A GitHub environment on which every call fails. -/
def failingEnv : GitHubEnv :=
  { reposGet := fun _ _ => none, langGet := fun _ _ => none,
    refGet := fun _ _ _ => none, createRef := fun _ _ _ _ => false,
    putFile := fun _ _ _ _ => 404, prCreate := fun _ _ _ _ => .error ("closed") }

/-- Demo operation sequence exercising every mutating store operation. -/
def demoOps : List StoreOp :=
  [.addFileOp ("c1") { name := "a.md", file_type := .stack, content := "fresh" } 1,
   .addFileOp ("c1") { name := "c.md", file_type := .custom, content := "new" } 2,
   .updateFileOp ("c1") "b.md" { content := "changed" } 3,
   .removeFileOp ("c1") "a.md" 4,
   .updateCtxOp ("c1") { name := some ("Renamed") } 5,
   .setRepoOp ("c1") demoRepo 6,
   .setContribsOp ("c1") [demoContrib] 7,
   .removeFileOp ("missing") "a.md" 8]

/-! ### Helper lemmas -/

theorem dictGet_dictInsert_self (k : String) (v : α) (m : List (String × α)) :
    dictGet k (dictInsert k v m) = some v := by
  induction m with
  | nil => simp [dictInsert, dictGet]
  | cons p rest ih =>
    obtain ⟨k', v'⟩ := p
    by_cases h : k' = k
    · simp [dictInsert, dictGet, h]
    · simp [dictInsert, dictGet, h, ih]

theorem dictGet_eq_none_iff (k : String) (m : List (String × α)) :
    dictGet k m = none ↔ k ∉ m.map Prod.fst := by
  induction m with
  | nil => simp [dictGet]
  | cons p rest ih =>
    obtain ⟨k', v'⟩ := p
    by_cases h : k' = k
    · simp [dictGet, h]
    · simp [dictGet, h, ih, Ne.symm h]

theorem dictInsert_of_dictGet_none (k : String) (v : α) (m : List (String × α))
    (h : dictGet k m = none) : dictInsert k v m = m ++ [(k, v)] := by
  induction m with
  | nil => simp [dictInsert]
  | cons p rest ih =>
    obtain ⟨k', v'⟩ := p
    by_cases hk : k' = k
    · simp [dictGet, hk] at h
    · simp [dictGet, hk] at h
      simp [dictInsert, hk, ih h]

theorem dictInsert_dictGet_self (k : String) (v : α) (m : List (String × α))
    (h : dictGet k m = some v) : dictInsert k v m = m := by
  induction m with
  | nil => simp [dictGet] at h
  | cons p rest ih =>
    obtain ⟨k', v'⟩ := p
    by_cases hk : k' = k
    · simp [dictGet, hk] at h
      simp [dictInsert, hk, h]
    · simp [dictGet, hk] at h
      simp [dictInsert, hk, ih h]

theorem mem_dictInsert (k : String) (v : α) (m : List (String × α)) (p : String × α)
    (h : p ∈ dictInsert k v m) : p = (k, v) ∨ p ∈ m := by
  induction m with
  | nil => simp [dictInsert] at h; simp [h]
  | cons q rest ih =>
    obtain ⟨k', v'⟩ := q
    by_cases hk : k' = k
    · simp [dictInsert, hk] at h
      rcases h with h | h
      · exact Or.inl h
      · exact Or.inr (List.mem_cons_of_mem _ h)
    · simp [dictInsert, hk] at h
      rcases h with h | h
      · exact Or.inr (by simp [h])
      · rcases ih h with h' | h'
        · exact Or.inl h'
        · exact Or.inr (List.mem_cons_of_mem _ h')

theorem dictGet_mem (k : String) (v : α) (m : List (String × α))
    (h : dictGet k m = some v) : (k, v) ∈ m := by
  induction m with
  | nil => simp [dictGet] at h
  | cons q rest ih =>
    obtain ⟨k', v'⟩ := q
    by_cases hk : k' = k
    · simp [dictGet, hk] at h
      simp [hk, h]
    · simp [dictGet, hk] at h
      exact List.mem_cons_of_mem _ (ih h)

theorem dictInsert_dictInsert (k : String) (v₁ v₂ : α) (m : List (String × α)) :
    dictInsert k v₂ (dictInsert k v₁ m) = dictInsert k v₂ m := by
  induction m with
  | nil => simp [dictInsert]
  | cons q rest ih =>
    obtain ⟨k', v'⟩ := q
    by_cases hk : k' = k
    · simp [dictInsert, hk]
    · simp [dictInsert, hk, ih]

theorem updateFileInList_spec (files : List ContextFile) (file_name content : String)
    (now : Time) (f' : ContextFile) (files' : List ContextFile)
    (h : updateFileInList files file_name content now = some (f', files')) :
    f'.content = content ∧ f'.updated_at = now ∧
    files'.map ContextFile.name = files.map ContextFile.name ∧
    (files'.filter fun g => g.name != file_name) =
      (files.filter fun g => g.name != file_name) ∧
    files'.find? (fun g => g.name == file_name) = some f' := by
  induction files generalizing files' with
  | nil => simp [updateFileInList] at h
  | cons f rest ih =>
    by_cases hf : f.name == file_name
    · rw [updateFileInList, if_pos hf] at h
      obtain ⟨h1, h2⟩ := Prod.mk.injEq .. ▸ Option.some.injEq .. ▸ h
      subst h1
      subst h2
      refine ⟨rfl, rfl, ?_, ?_, ?_⟩
      · simp [List.map_cons]
      · have hne : (({ f with content := content, updated_at := now } :
            ContextFile).name != file_name) = false := by
          simpa using hf
        have hne' : (f.name != file_name) = false := by simpa using hf
        simp [List.filter, hne, hne']
      · simp [List.find?, hf]
    · rw [updateFileInList, if_neg (by simpa using hf)] at h
      cases hrec : updateFileInList rest file_name content now with
      | none => rw [hrec] at h; simp at h
      | some p =>
        obtain ⟨r, rest'⟩ := p
        rw [hrec] at h
        simp at h
        obtain ⟨h1, h2⟩ := h
        subst h1
        subst h2
        obtain ⟨i1, i2, i3, i4, i5⟩ := ih rest' hrec
        have hne : (f.name != file_name) = true := by simpa using hf
        refine ⟨i1, i2, ?_, ?_, ?_⟩
        · simp [List.map_cons, i3]
        · simp [List.filter, hne, i4]
        · simp [List.find?, hf, i5]

theorem updateFileInList_isSome (files : List ContextFile) (file_name content : String)
    (now : Time) (f0 : ContextFile)
    (h : files.find? (fun g => g.name == file_name) = some f0) :
    ∃ f' files', updateFileInList files file_name content now = some (f', files') := by
  induction files with
  | nil => simp [List.find?] at h
  | cons f rest ih =>
    by_cases hf : f.name == file_name
    · exact ⟨_, _, by rw [updateFileInList, if_pos hf]⟩
    · have heq : List.find? (fun g => g.name == file_name) (f :: rest) =
          List.find? (fun g => g.name == file_name) rest :=
        List.find?_cons_of_neg rest hf
      rw [heq] at h
      obtain ⟨f', files', hrec⟩ := ih h
      exact ⟨f', f :: files', by rw [updateFileInList, if_neg (by simpa using hf), hrec]⟩

theorem flipFirst_flipFirst (login : String) (cs : List GitHubContributor) :
    flipFirst login (flipFirst login cs) = cs := by
  induction cs with
  | nil => rfl
  | cons c rest ih =>
    by_cases hc : c.login == login
    · simp [flipFirst, hc, Bool.not_not]
    · simp [flipFirst, hc, ih]

theorem flipFirst_map_login (login : String) (cs : List GitHubContributor) :
    (flipFirst login cs).map GitHubContributor.login = cs.map GitHubContributor.login := by
  induction cs with
  | nil => rfl
  | cons c rest ih =>
    by_cases hc : c.login == login
    · simp [flipFirst, hc]
    · simp [flipFirst, hc, ih]

theorem flipFirst_all_ne (login : String) (cs : List GitHubContributor) :
    ((flipFirst login cs).all fun c => c.login != login) =
      (cs.all fun c => c.login != login) := by
  induction cs with
  | nil => rfl
  | cons c rest ih =>
    by_cases hc : c.login == login
    · simp [flipFirst, hc]
    · simp [flipFirst, hc, ih]

theorem map_name_filter (files : List ContextFile) (n : String) :
    (files.filter fun f => f.name != n).map ContextFile.name =
      (files.map ContextFile.name).filter fun m => m != n := by
  induction files with
  | nil => rfl
  | cons f rest ih =>
    by_cases hf : f.name == n
    · have : (f.name != n) = false := by simpa using hf
      simp [List.filter, this, ih]
    · have : (f.name != n) = true := by simpa using hf
      simp [List.filter, this, ih]

theorem filter_ne_length_of_mem (ns : List String) (n : String)
    (hnd : ns.Nodup) (hm : n ∈ ns) :
    (ns.filter fun x => x != n).length + 1 = ns.length := by
  induction ns with
  | nil => cases hm
  | cons a rest ih =>
    by_cases ha : a = n
    · subst ha
      have hnotin : a ∉ rest := (List.nodup_cons.mp hnd).1
      have : rest.filter (fun x => x != a) = rest := by
        rw [List.filter_eq_self]
        intro x hx
        simp only [bne_iff_ne, ne_eq, decide_eq_true_eq]
        exact fun hxa => hnotin (hxa ▸ hx)
      simp [List.filter, this]
    · have hm' : n ∈ rest := by
        rcases List.mem_cons.mp hm with h | h
        · exact absurd h.symm ha
        · exact h
      have : (a != n) = true := by simpa using ha
      simp [List.filter, this]
      exact ih (List.nodup_cons.mp hnd).2 hm'

theorem nodup_filter_append_singleton (ns : List String) (n : String)
    (h : ns.Nodup) : ((ns.filter fun x => x != n) ++ [n]).Nodup := by
  rw [List.nodup_append]
  refine ⟨h.filter _, List.nodup_singleton n, ?_⟩
  intro a ha hb
  simp only [List.mem_singleton] at hb
  subst hb
  have := List.of_mem_filter ha
  simp at this

theorem repoUrlPred_iff (ctx : Context) (uid : Nat) (url : String) :
    (ctx.owner_id == uid &&
      (match ctx.github_repo with
       | some repo => repo.url == url
       | none => false)) = true ↔
      (ctx.owner_id = uid ∧ ∃ repo, ctx.github_repo = some repo ∧ repo.url = url) := by
  cases hg : ctx.github_repo with
  | none => simp [hg]
  | some repo => simp [hg]

theorem get_context_by_repo_url_isSome_iff (s : Store) (uid : Nat) (url : String) :
    (get_context_by_repo_url s uid url).isSome = true ↔
      ∃ ctx ∈ s.contexts.map Prod.snd, ctx.owner_id = uid ∧
        ∃ repo, ctx.github_repo = some repo ∧ repo.url = url := by
  unfold get_context_by_repo_url
  rw [List.find?_isSome]
  constructor
  · rintro ⟨ctx, hmem, hp⟩
    exact ⟨ctx, hmem, (repoUrlPred_iff ctx uid url).mp hp⟩
  · rintro ⟨ctx, hmem, hp⟩
    exact ⟨ctx, hmem, (repoUrlPred_iff ctx uid url).mpr hp⟩

theorem get_repo_info_no_branch (env : GitHubEnv) (url : String) :
    ((get_repo_info env url).2.all fun c => noBranchCall c) = true := by
  unfold get_repo_info
  cases hp : parseGitHubUrl url with
  | none => simp
  | some p =>
    obtain ⟨owner, repo⟩ := p
    cases hr : env.reposGet owner repo with
    | none => simp [hr, noBranchCall]
    | some rd => simp [hr, noBranchCall]

theorem if_pyTruthy (o : Option String) (a b : String) :
    (if pyTruthy o then a else b) = if nonEmptyStr o then a else b := by
  cases o with
  | none => simp [pyTruthy, nonEmptyStr]
  | some s =>
    by_cases h : s = ""
    · subst h
      simp [pyTruthy, nonEmptyStr]
    · simp [pyTruthy, nonEmptyStr, h]

theorem if_pyTruthyBool (o : Option Bool) (a b : String) :
    (if pyTruthyBool o then a else b) = if o = some true then a else b := by
  cases o with
  | none => simp [pyTruthyBool]
  | some v => cases v <;> simp [pyTruthyBool]

theorem filter_ne_length_lt (ns : List String) (n : String) (hm : n ∈ ns) :
    (ns.filter fun x => x != n).length < ns.length := by
  induction ns with
  | nil => cases hm
  | cons a rest ih =>
    by_cases ha : a = n
    · subst ha
      have : (a != a) = false := by simp
      simp only [List.filter, this]
      exact Nat.lt_succ_of_le (List.length_filter_le _ _)
    · have hm' : n ∈ rest := by
        rcases List.mem_cons.mp hm with h | h
        · exact absurd h.symm ha
        · exact h
      have : (a != n) = true := by simpa using ha
      simp only [List.filter, this, List.length_cons]
      exact Nat.succ_lt_succ (ih hm')

theorem nodup_keys_concat (m : List (String × α)) (k : String) (v : α)
    (hget : dictGet k m = none) (hnd : (m.map Prod.fst).Nodup) :
    ((m ++ [(k, v)]).map Prod.fst).Nodup := by
  rw [List.map_append, List.nodup_append]
  refine ⟨hnd, by simp, ?_⟩
  intro a ha hb
  simp at hb
  subst hb
  exact (dictGet_eq_none_iff _ m).mp hget ha

/-! ### Claim theorems -/

/-- C1: every valid create request yields a context whose id is the freshly
generated one (unique: key uniqueness of the store is preserved), whose
`created_at` equals `updated_at`, whose files and contributors are empty,
whose repo link is absent, and whose `is_public` equals the request's
value, the request model defaulting `is_public` to true when not
supplied. -/
theorem create_context_spec (s : Store) (user_id : Nat) (user_login : String)
    (request : CreateContextRequest) (freshId : String) (now : Time)
    (hfresh : dictGet freshId s.contexts = none)
    (hvalid : pyTruthy request.github_repo_url = true →
      get_context_by_repo_url s user_id (getStr request.github_repo_url) = none) :
    ∃ ctx s', create_context s user_id user_login request freshId now = .ok (ctx, s') ∧
      ctx.id = freshId ∧ ctx.created_at = ctx.updated_at ∧ ctx.files = [] ∧
      ctx.contributors = [] ∧ ctx.github_repo = none ∧
      ctx.is_public = request.is_public ∧
      s'.contexts = s.contexts ++ [(freshId, ctx)] ∧
      ((s.contexts.map Prod.fst).Nodup → (s'.contexts.map Prod.fst).Nodup) ∧
      (∀ n d u, ({ name := n, description := d, github_repo_url := u } :
        CreateContextRequest).is_public = true) := by
  have hguard : (pyTruthy request.github_repo_url &&
      (get_context_by_repo_url s user_id (getStr request.github_repo_url)).isSome) = false := by
    cases hp : pyTruthy request.github_repo_url with
    | false => rfl
    | true => rw [hvalid hp]; rfl
  unfold create_context
  rw [hguard]
  refine ⟨_, _, rfl, rfl, rfl, rfl, rfl, rfl, rfl, ?_, ?_, fun n d u => rfl⟩
  · dsimp only [save_context]
    exact dictInsert_of_dictGet_none _ _ _ hfresh
  · intro hnd
    dsimp only [save_context]
    rw [dictInsert_of_dictGet_none _ _ _ hfresh]
    exact nodup_keys_concat _ _ _ hfresh hnd

/-- C1 witness: creating a context on the empty store with a plain request
succeeds. -/
theorem create_context_spec_witness :
    isErr (create_context emptyStore 1 ("alice") { name := "Foo" } ("id-1") 3) = false := by
  obtain ⟨ctx, s', heq, -⟩ :=
    create_context_spec emptyStore 1 ("alice") { name := "Foo" } ("id-1") 3 rfl (by decide)
  rw [heq]
  rfl

/-- C4: adding a file whose name an existing file already carries returns
a file with the fresh content and fresh timestamps, the stored context
holds the old files minus every same-named entry with the new file
appended at the end (prior position lost), the file count is unchanged,
and the context's `updated_at` is bumped. -/
theorem add_file_replaces_existing (s : Store) (context_id : String)
    (request : CreateContextFileRequest) (now : Time) (ctx : Context)
    (hctx : dictGet context_id s.contexts = some ctx)
    (hnd : (ctx.files.map ContextFile.name).Nodup)
    (hmem : request.name ∈ ctx.files.map ContextFile.name) :
    (add_file_to_context s context_id request now).1 =
      some { name := request.name, file_type := request.file_type,
             content := request.content, created_at := now, updated_at := now } ∧
    get_context (add_file_to_context s context_id request now).2 context_id =
      some { ctx with
             files := ctx.files.filter (fun f => f.name != request.name)
               ++ [{ name := request.name, file_type := request.file_type,
                     content := request.content, created_at := now,
                     updated_at := now }],
             updated_at := now } ∧
    (ctx.files.filter (fun f => f.name != request.name)
       ++ [({ name := request.name, file_type := request.file_type,
              content := request.content, created_at := now,
              updated_at := now } : ContextFile)]).length = ctx.files.length := by
  refine ⟨?_, ?_, ?_⟩
  · simp only [add_file_to_context, hctx]
  · simp only [add_file_to_context, get_context, save_context, hctx]
    exact dictGet_dictInsert_self _ _ _
  · rw [List.length_append, List.length_singleton]
    have h1 : (ctx.files.filter fun f => f.name != request.name).length =
        ((ctx.files.map ContextFile.name).filter fun m => m != request.name).length := by
      rw [← map_name_filter]
      exact (List.length_map _ _).symm
    rw [h1, ← List.length_map ctx.files ContextFile.name]
    exact filter_ne_length_of_mem _ _ hnd hmem

/-- C4 witness: replacing `a.md` in a concrete two-file context returns
the fresh file object. -/
theorem add_file_replaces_existing_witness :
    (add_file_to_context twoFileStore ("c1")
      { name := "a.md", file_type := .stack, content := "new" } 5).1 =
      some { name := "a.md", file_type := .stack, content := "new",
             created_at := 5, updated_at := 5 } :=
  (add_file_replaces_existing twoFileStore ("c1")
    { name := "a.md", file_type := .stack, content := "new" } 5 twoFileCtx rfl
    (by decide) (by decide)).1

/-- C6: when the prerequisite read of the linked repository's metadata
fails, the publish endpoint fails and its API-call trace contains no
branch-creation call at all. -/
theorem publish_fails_before_branch (env : GitHubEnv) (s : Store)
    (context_id user_login ts : String) (ctx : Context) (repo : GitHubRepo)
    (hctx : get_context s context_id = some ctx)
    (hrepo : ctx.github_repo = some repo)
    (hfail : (get_repo_info env repo.url).1 = none) :
    isErr (create_pull_request env s context_id user_login ts).1 = true ∧
    ((create_pull_request env s context_id user_login ts).2.all
      fun c => noBranchCall c) = true := by
  have htr := get_repo_info_no_branch env repo.url
  unfold create_pull_request
  rw [hctx]
  dsimp only
  rw [hrepo]
  dsimp only
  rcases hgri : get_repo_info env repo.url with ⟨v, tr⟩
  rw [hgri] at hfail htr
  cases v with
  | some info => exact absurd hfail (by simp)
  | none => exact ⟨rfl, htr⟩

/-- C6 witness: publishing a linked context against an environment whose
repository read fails yields an error with a branch-creation-free trace. -/
theorem publish_fails_before_branch_witness :
    isErr (create_pull_request failingEnv linkedStore ("c1") "alice" "t0").1 = true ∧
    ((create_pull_request failingEnv linkedStore ("c1") "alice" "t0").2.all
      fun c => noBranchCall c) = true :=
  publish_fails_before_branch failingEnv linkedStore ("c1") "alice" "t0"
    linkedCtx demoRepo rfl rfl (by decide)

/-- C7: with a linked repository carrying a non-empty language map, the
stack document lists exactly the language keys, sorted alphabetically,
one bullet each, followed by the fixed placeholder sections; with no
linked repository or an absent/empty language map the language section is
omitted entirely while the placeholder sections remain. -/
theorem stack_document_spec (ctx : Context) :
    (∀ repo langs, ctx.github_repo = some repo → repo.languages = some langs →
      langs ≠ [] →
      List.Sorted (· ≤ ·) (List.insertionSort (· ≤ ·) (langs.map Prod.fst)) ∧
      List.Perm (List.insertionSort (· ≤ ·) (langs.map Prod.fst)) (langs.map Prod.fst) ∧
      generate_stack_content ctx =
        "# Technology Stack\n\n"
        ++ ("## Languages\n"
            ++ String.join ((List.insertionSort (· ≤ ·) (langs.map Prod.fst)).map
                 (fun lang => "- **" ++ lang ++ "**\n"))
            ++ "\n")
        ++ stackPlaceholders) ∧
    ((ctx.github_repo = none ∨ ∃ repo, ctx.github_repo = some repo ∧
        (repo.languages = none ∨ repo.languages = some [])) →
      generate_stack_content ctx = "# Technology Stack\n\n" ++ stackPlaceholders) := by
  constructor
  · intro repo langs hrepo hlangs hne
    refine ⟨List.sorted_insertionSort _ _, List.perm_insertionSort _ _, ?_⟩
    cases langs with
    | nil => exact absurd rfl hne
    | cons a l =>
      simp only [generate_stack_content, hrepo, hlangs, List.isEmpty_cons,
        Bool.false_eq_true, if_false]
  · intro h
    rcases h with hnone | ⟨repo, hrepo, h0 | h0⟩
    · simp only [generate_stack_content, hnone, String.append_empty]
    · simp only [generate_stack_content, hrepo, h0, String.append_empty]
    · simp only [generate_stack_content, hrepo, h0, List.isEmpty_nil, if_true,
        String.append_empty]

/-- C7 witness: the demo repository with languages Python and Go yields a
stack document listing Go before Python; the repo-less demo context yields
one with no language section. -/
theorem stack_document_spec_witness :
    generate_stack_content linkedCtx =
      "# Technology Stack\n\n"
      ++ ("## Languages\n"
          ++ String.join ((List.insertionSort (· ≤ ·)
               (([("Python", 50), ("Go", 100)] : List (String × Nat)).map Prod.fst)).map
               (fun lang => "- **" ++ lang ++ "**\n"))
          ++ "\n")
      ++ stackPlaceholders ∧
    generate_stack_content noLangCtx = "# Technology Stack\n\n" ++ stackPlaceholders :=
  ⟨((stack_document_spec linkedCtx).1 demoRepo _ rfl rfl (by decide)).2.2,
   (stack_document_spec noLangCtx).2 (Or.inl rfl)⟩

/-- C2: `create_context` fails with the duplicate-link error exactly when a
repository URL is supplied (a truthy, i.e. non-empty, `github_repo_url`)
and the same owner already holds a context whose linked repository
descriptor carries exactly that URL; in particular creation under an owner
with no such link — e.g. a different owner — succeeds. -/
theorem create_context_duplicate_link_iff (s : Store) (user_id : Nat)
    (user_login : String) (request : CreateContextRequest) (freshId : String)
    (now : Time) :
    isErr (create_context s user_id user_login request freshId now) = true ↔
      (pyTruthy request.github_repo_url = true ∧
        ∃ ctx ∈ s.contexts.map Prod.snd, ctx.owner_id = user_id ∧
          ∃ repo, ctx.github_repo = some repo ∧
            repo.url = getStr request.github_repo_url) := by
  have hbase : isErr (create_context s user_id user_login request freshId now) =
      (pyTruthy request.github_repo_url &&
        (get_context_by_repo_url s user_id (getStr request.github_repo_url)).isSome) := by
    unfold create_context
    cases hguard : (pyTruthy request.github_repo_url &&
        (get_context_by_repo_url s user_id (getStr request.github_repo_url)).isSome) with
    | false => simp [hguard, isErr]
    | true => simp [hguard, isErr]
  rw [hbase, Bool.and_eq_true, get_context_by_repo_url_isSome_iff]

/-- C8: the block generated for one selected contributor of the people
document equals the spec-side block: one line per non-empty optional field
(no line and no placeholder otherwise), a hire line exactly when the
hireable flag is set to true, and a website link whose target is prefixed
with an `https://` scheme when the raw value lacks one while the label
shows the raw value. -/
theorem people_entry_nonempty_fields (c : GitHubContributor) :
    contribEntry c = contribEntrySpec c := by
  unfold contribEntry contribEntrySpec
  simp only [if_pyTruthy, if_pyTruthyBool]

/-- C9: `remove_file_from_context` returns `false` and leaves the whole
store (contexts and durable storage) unchanged when the context is absent
or the file name is not present; on a present name it removes exactly the
files of that name, bumps the context's `updated_at`, persists the context
to durable storage, and returns `true`. -/
theorem remove_file_spec (s : Store) (context_id file_name : String) (now : Time) :
    (dictGet context_id s.contexts = none →
      remove_file_from_context s context_id file_name now = (false, s)) ∧
    (∀ ctx, dictGet context_id s.contexts = some ctx →
      file_name ∉ ctx.files.map ContextFile.name →
      remove_file_from_context s context_id file_name now = (false, s)) ∧
    (∀ ctx, dictGet context_id s.contexts = some ctx →
      file_name ∈ ctx.files.map ContextFile.name →
      (remove_file_from_context s context_id file_name now).1 = true ∧
      get_context (remove_file_from_context s context_id file_name now).2 context_id =
        some { ctx with
               files := ctx.files.filter (fun f => f.name != file_name),
               updated_at := now } ∧
      (remove_file_from_context s context_id file_name now).2.storage =
        dictInsert ctx.id
          (saveContextDir (dictGet ctx.id s.storage)
            { ctx with
              files := ctx.files.filter (fun f => f.name != file_name),
              updated_at := now }) s.storage) := by
  refine ⟨?_, ?_, ?_⟩
  · intro h
    unfold remove_file_from_context
    rw [h]
  · intro ctx hctx hmem
    have hfe : ctx.files.filter (fun f => f.name != file_name) = ctx.files := by
      rw [List.filter_eq_self]
      intro f hf
      simp only [bne_iff_ne, ne_eq, decide_eq_true_eq]
      exact fun heq => hmem (heq ▸ List.mem_map_of_mem ContextFile.name hf)
    simp only [remove_file_from_context, hctx, hfe]
    rw [if_neg (lt_irrefl _)]
    rw [show ({ ctx with files := ctx.files } : Context) = ctx from rfl]
    rw [dictInsert_dictGet_self _ _ _ hctx]
  · intro ctx hctx hmem
    have hlen : (ctx.files.filter fun f => f.name != file_name).length <
        ctx.files.length := by
      have h1 : (ctx.files.filter fun f => f.name != file_name).length =
          ((ctx.files.map ContextFile.name).filter fun m => m != file_name).length := by
        rw [← map_name_filter]
        exact (List.length_map _ _).symm
      rw [h1]
      calc ((ctx.files.map ContextFile.name).filter fun m => m != file_name).length
          < (ctx.files.map ContextFile.name).length := filter_ne_length_lt _ _ hmem
        _ = ctx.files.length := List.length_map _ _
    simp only [remove_file_from_context, hctx]
    rw [if_pos hlen]
    refine ⟨rfl, ?_, rfl⟩
    simp only [get_context, save_context]
    exact dictGet_dictInsert_self _ _ _

/-- C9 witness: removing a present file from a concrete store succeeds. -/
theorem remove_file_spec_witness :
    (remove_file_from_context twoFileStore ("c1") "a.md" 4).1 = true :=
  ((remove_file_spec twoFileStore ("c1") "a.md" 4).2.2 twoFileCtx rfl (by decide)).1

/-- C10: on an existing context, `update_context` returns exactly the
context in which only the supplied fields changed, `updated_at` was set to
the fresh instant (also for an empty request), and every other field —
id, owner identity, repo link, files, contributors, `created_at` — was
kept; the updated context replaces the stored one and is written through
to durable storage. -/
theorem update_context_only_supplied_fields (s : Store) (context_id : String)
    (request : UpdateContextRequest) (now : Time) (ctx : Context)
    (hctx : dictGet context_id s.contexts = some ctx) :
    (update_context s context_id request now).1 =
      some (updateContextSpec ctx request now) ∧
    (updateContextSpec ctx request now).id = ctx.id ∧
    (updateContextSpec ctx request now).owner_id = ctx.owner_id ∧
    (updateContextSpec ctx request now).owner_login = ctx.owner_login ∧
    (updateContextSpec ctx request now).github_repo = ctx.github_repo ∧
    (updateContextSpec ctx request now).files = ctx.files ∧
    (updateContextSpec ctx request now).contributors = ctx.contributors ∧
    (updateContextSpec ctx request now).created_at = ctx.created_at ∧
    (updateContextSpec ctx request now).updated_at = now ∧
    (update_context s context_id request now).2.contexts =
      dictInsert context_id (updateContextSpec ctx request now) s.contexts ∧
    (update_context s context_id request now).2.storage =
      dictInsert ctx.id (saveContextDir (dictGet ctx.id s.storage)
        (updateContextSpec ctx request now)) s.storage := by
  unfold update_context updateContextSpec save_context saveContextDir
  rw [hctx]
  exact ⟨rfl, rfl, rfl, rfl, rfl, rfl, rfl, rfl, rfl, rfl, rfl⟩

/-- C10 witness: an empty update of a concrete context still succeeds and
yields the prescribed updated context. -/
theorem update_context_only_supplied_fields_witness :
    (update_context twoFileStore ("c1") {} 9).1 =
      some (updateContextSpec twoFileCtx {} 9) :=
  (update_context_only_supplied_fields twoFileStore ("c1") {} 9 twoFileCtx rfl).1

theorem storeInv_insert (s : Store) (cid : String) (ctx : Context)
    (st : List (String × SavedDir)) (h : storeInv s) (hctx : filesNodup ctx) :
    storeInv { contexts := dictInsert cid ctx s.contexts, storage := st } := by
  intro p hp
  rcases mem_dictInsert _ _ _ _ hp with h' | h'
  · rw [h']
    exact hctx
  · exact h _ h'

theorem filesNodup_filter (ctx : Context) (n : String) (h : filesNodup ctx) :
    ((ctx.files.filter fun f => f.name != n).map ContextFile.name).Nodup := by
  rw [map_name_filter]
  exact h.filter _

theorem applyOp_preserves (s : Store) (op : StoreOp) (h : storeInv s) :
    storeInv (applyOp s op) := by
  cases op with
  | addFileOp cid req now =>
    show storeInv (add_file_to_context s cid req now).2
    unfold add_file_to_context
    cases hg : dictGet cid s.contexts with
    | none => exact h
    | some ctx =>
      refine storeInv_insert s cid _ _ h ?_
      show ((ctx.files.filter (fun f : ContextFile => f.name != req.name) ++ [_]).map
        ContextFile.name).Nodup
      rw [List.map_append, map_name_filter]
      exact nodup_filter_append_singleton _ _ (h _ (dictGet_mem _ _ _ hg))
  | updateFileOp cid fn req now =>
    show storeInv (update_context_file s cid fn req now).2
    unfold update_context_file
    cases hg : dictGet cid s.contexts with
    | none => exact h
    | some ctx =>
      dsimp only
      cases hu : updateFileInList ctx.files fn req.content now with
      | none => exact h
      | some p =>
        obtain ⟨f', files'⟩ := p
        refine storeInv_insert s cid _ _ h ?_
        show (files'.map ContextFile.name).Nodup
        rw [(updateFileInList_spec _ _ _ _ _ _ hu).2.2.1]
        exact h _ (dictGet_mem _ _ _ hg)
  | removeFileOp cid fn now =>
    show storeInv (remove_file_from_context s cid fn now).2
    unfold remove_file_from_context
    cases hg : dictGet cid s.contexts with
    | none => exact h
    | some ctx =>
      dsimp only
      by_cases hlen : (ctx.files.filter fun f => f.name != fn).length <
          ctx.files.length
      · rw [if_pos hlen]
        exact storeInv_insert s cid _ _ h
          (filesNodup_filter ctx fn (h _ (dictGet_mem _ _ _ hg)))
      · rw [if_neg hlen]
        exact storeInv_insert s cid _ _ h
          (filesNodup_filter ctx fn (h _ (dictGet_mem _ _ _ hg)))
  | updateCtxOp cid req now =>
    show storeInv (update_context s cid req now).2
    unfold update_context
    cases hg : dictGet cid s.contexts with
    | none => exact h
    | some ctx => exact storeInv_insert s cid _ _ h (h _ (dictGet_mem _ _ _ hg))
  | setRepoOp cid repo now =>
    show storeInv (set_context_repo s cid repo now).2
    unfold set_context_repo
    cases hg : dictGet cid s.contexts with
    | none => exact h
    | some ctx => exact storeInv_insert s cid _ _ h (h _ (dictGet_mem _ _ _ hg))
  | setContribsOp cid cs now =>
    show storeInv (set_context_contributors s cid cs now).2
    unfold set_context_contributors
    cases hg : dictGet cid s.contexts with
    | none => exact h
    | some ctx => exact storeInv_insert s cid _ _ h (h _ (dictGet_mem _ _ _ hg))

/-- C3: the file-name uniqueness invariant — within any stored context no
two files share a name — is preserved by every sequence of Context Store
operations (`addFile`, `updateFile`, `removeFile`, `updateContext`,
`setRepoLink`, `setContributors`). -/
theorem store_files_nodup_invariant (s : Store) (ops : List StoreOp)
    (h : storeInv s) : storeInv (applyOps s ops) := by
  induction ops generalizing s with
  | nil => exact h
  | cons op rest ih => exact ih _ (applyOp_preserves _ _ h)

/-- C3 witness: a concrete operation sequence on a concrete store keeps
the invariant. -/
theorem store_files_nodup_invariant_witness :
    storeInv (applyOps twoFileStore demoOps) :=
  store_files_nodup_invariant twoFileStore demoOps
    (by simp only [storeInv, filesNodup]; decide)


theorem update_context_file_eq (s : Store) (cid fn : String)
    (req : UpdateContextFileRequest) (now : Time) (ctx : Context)
    (f' : ContextFile) (files' : List ContextFile)
    (hctx : dictGet cid s.contexts = some ctx)
    (hupd : updateFileInList ctx.files fn req.content now = some (f', files')) :
    (update_context_file s cid fn req now).1 = some f' ∧
    (update_context_file s cid fn req now).2.contexts =
      dictInsert cid { ctx with files := files', updated_at := now } s.contexts := by
  unfold update_context_file
  rw [hctx]
  dsimp only
  rw [hupd]
  exact ⟨rfl, rfl⟩

theorem toggle_eq_update (s : Store) (context_id login : String) (now : Time)
    (ctx : Context) (hctx : get_context s context_id = some ctx)
    (hlogin : (ctx.contributors.all fun c => c.login != login) = false) :
    toggle_contributor_selection s context_id login ctx.owner_id now =
      .ok (update_context_file
        (save_context
          { s with
            contexts :=
              dictInsert context_id
                { ctx with contributors := flipFirst login ctx.contributors }
                s.contexts }
          { ctx with contributors := flipFirst login ctx.contributors })
        context_id ("people.md")
        { content := generate_people_content_of (flipFirst login ctx.contributors) }
        now).2 := by
  unfold toggle_contributor_selection
  rw [hctx]
  dsimp only
  rw [if_neg (by simp), if_neg (by simp [hlogin])]
  rfl

theorem toggle_ok_eq (s : Store) (context_id login : String) (now : Time)
    (ctx : Context) (f' : ContextFile) (files' : List ContextFile)
    (hctx : get_context s context_id = some ctx)
    (hlogin : (ctx.contributors.all fun c => c.login != login) = false)
    (hupd : updateFileInList ctx.files ("people.md")
      (generate_people_content_of (flipFirst login ctx.contributors)) now =
      some (f', files')) :
    ∃ st, toggle_contributor_selection s context_id login ctx.owner_id now = .ok st ∧
      st.contexts =
        dictInsert context_id
          { ctx with
            contributors := flipFirst login ctx.contributors,
            files := files', updated_at := now }
          s.contexts := by
  have ht := toggle_eq_update s context_id login now ctx hctx hlogin
  have hmid : dictGet context_id
      (save_context
        { s with
          contexts :=
            dictInsert context_id
              { ctx with contributors := flipFirst login ctx.contributors }
              s.contexts }
        { ctx with contributors := flipFirst login ctx.contributors }).contexts =
      some { ctx with contributors := flipFirst login ctx.contributors } :=
    dictGet_dictInsert_self _ _ _
  have hu := update_context_file_eq _ context_id ("people.md")
    { content := generate_people_content_of (flipFirst login ctx.contributors) } now
    { ctx with contributors := flipFirst login ctx.contributors } f' files' hmid hupd
  refine ⟨_, ht, ?_⟩
  calc (update_context_file
        (save_context
          { s with
            contexts :=
              dictInsert context_id
                { ctx with contributors := flipFirst login ctx.contributors }
                s.contexts }
          { ctx with contributors := flipFirst login ctx.contributors })
        context_id ("people.md")
        { content := generate_people_content_of (flipFirst login ctx.contributors) }
        now).2.contexts
      = dictInsert context_id
          { { ctx with contributors := flipFirst login ctx.contributors } with
            files := files', updated_at := now }
          (save_context
            { s with
              contexts :=
                dictInsert context_id
                  { ctx with contributors := flipFirst login ctx.contributors }
                  s.contexts }
            { ctx with contributors := flipFirst login ctx.contributors }).contexts := hu.2
    _ = dictInsert context_id
          { { ctx with contributors := flipFirst login ctx.contributors } with
            files := files', updated_at := now }
          (dictInsert context_id
            { ctx with contributors := flipFirst login ctx.contributors }
            s.contexts) := rfl
    _ = dictInsert context_id
          { { ctx with contributors := flipFirst login ctx.contributors } with
            files := files', updated_at := now }
          s.contexts := dictInsert_dictInsert _ _ _ _
    _ = dictInsert context_id
          { ctx with
            contributors := flipFirst login ctx.contributors,
            files := files', updated_at := now }
          s.contexts := rfl

set_option maxRecDepth 8192 in
/-- C5 counterexample: on a context whose stored people document was
hand-edited (stale with respect to the generator), both toggles succeed
yet the people document's content after toggling the contributor twice
differs from the content before the first toggle, refuting the claim as
stated for arbitrary contexts. -/
theorem toggle_twice_stale_counterexample :
    isErr (toggle_contributor_selection c5StaleStore ("c1") "alice" 1 7) = false ∧
    isErr (toggle_contributor_selection (c5Step 7 c5StaleStore) "c1" "alice" 1 8) = false ∧
    storedFileContent (c5Step 8 (c5Step 7 c5StaleStore)) "c1" "people.md" ≠
      storedFileContent c5StaleStore ("c1") "people.md" := by
  refine ⟨rfl, rfl, ?_⟩
  decide

/-- C5 (amended): when the stored people document equals the freshly
generated people content for the context's current contributor state,
toggling a present contributor twice restores the people document's
content byte-for-byte, and neither toggle changes any file other than the
people document. -/
theorem toggle_twice_people_roundtrip (s : Store) (context_id login : String)
    (now1 now2 : Time) (ctx : Context)
    (hctx : get_context s context_id = some ctx)
    (hlogin : (ctx.contributors.all fun c => c.login != login) = false)
    (hfresh : storedFileContent s context_id ("people.md") =
      some (generate_people_content ctx)) :
    ∃ s1 s2,
      toggle_contributor_selection s context_id login ctx.owner_id now1 = .ok s1 ∧
      toggle_contributor_selection s1 context_id login ctx.owner_id now2 = .ok s2 ∧
      storedFileContent s2 context_id ("people.md") =
        storedFileContent s context_id ("people.md") ∧
      otherFilesOf s1 context_id = otherFilesOf s context_id ∧
      otherFilesOf s2 context_id = otherFilesOf s context_id := by
  have hctxd : dictGet context_id s.contexts = some ctx := hctx
  obtain ⟨f0, hf0, hf0c⟩ : ∃ f0,
      ctx.files.find? (fun f => f.name == "people.md") = some f0 ∧
      f0.content = generate_people_content ctx := by
    unfold storedFileContent get_context at hfresh
    rw [hctxd] at hfresh
    dsimp only [Option.bind] at hfresh
    cases hf : ctx.files.find? (fun f => f.name == "people.md") with
    | none => rw [hf] at hfresh; simp at hfresh
    | some f0 =>
      rw [hf] at hfresh
      simp at hfresh
      exact ⟨f0, rfl, hfresh⟩
  obtain ⟨f1, files1, hupd1⟩ := updateFileInList_isSome ctx.files ("people.md")
    (generate_people_content_of (flipFirst login ctx.contributors)) now1 f0 hf0
  obtain ⟨s1, ht1, hs1c⟩ :=
    toggle_ok_eq s context_id login now1 ctx f1 files1 hctx hlogin hupd1
  obtain ⟨-, -, -, hfil1, hfind1⟩ :=
    updateFileInList_spec ctx.files ("people.md")
      (generate_people_content_of (flipFirst login ctx.contributors)) now1 f1 files1 hupd1
  have hctx2 : get_context s1 context_id =
      some { ctx with
             contributors := flipFirst login ctx.contributors,
             files := files1, updated_at := now1 } := by
    unfold get_context
    rw [hs1c]
    exact dictGet_dictInsert_self _ _ _
  have hlogin2 : (({ ctx with
      contributors := flipFirst login ctx.contributors,
      files := files1, updated_at := now1 } : Context).contributors.all
        fun c => c.login != login) = false := by
    show ((flipFirst login ctx.contributors).all fun c => c.login != login) = false
    rw [flipFirst_all_ne]
    exact hlogin
  obtain ⟨f2, files2, hupd2⟩ := updateFileInList_isSome files1 ("people.md")
    (generate_people_content_of (flipFirst login
      ({ ctx with
         contributors := flipFirst login ctx.contributors,
         files := files1, updated_at := now1 } : Context).contributors)) now2 f1 hfind1
  obtain ⟨s2, ht2, hs2c⟩ :=
    toggle_ok_eq s1 context_id login now2
      { ctx with
        contributors := flipFirst login ctx.contributors,
        files := files1, updated_at := now1 } f2 files2 hctx2 hlogin2 hupd2
  obtain ⟨hc2, -, -, hfil2, hfind2⟩ :=
    updateFileInList_spec files1 ("people.md")
      (generate_people_content_of (flipFirst login
        ({ ctx with
           contributors := flipFirst login ctx.contributors,
           files := files1, updated_at := now1 } : Context).contributors)) now2 f2 files2 hupd2
  refine ⟨s1, s2, ht1, ht2, ?_, ?_, ?_⟩
  · unfold storedFileContent get_context
    rw [hs2c, dictGet_dictInsert_self, hctxd]
    dsimp only [Option.bind]
    rw [hfind2, hf0]
    dsimp only [Option.map]
    rw [hc2, hf0c]
    show some (generate_people_content_of
        (flipFirst login (flipFirst login ctx.contributors))) =
      some (generate_people_content_of ctx.contributors)
    rw [flipFirst_flipFirst]
  · unfold otherFilesOf get_context
    rw [hs1c, dictGet_dictInsert_self, hctxd]
    dsimp only [Option.map]
    rw [hfil1]
  · unfold otherFilesOf get_context
    rw [hs2c, dictGet_dictInsert_self, hctxd]
    dsimp only [Option.map]
    rw [hfil2, hfil1]

set_option maxRecDepth 8192 in
/-- C5 (amended) witness: on a concrete context whose people document is
freshly generated, toggling alice twice restores the people document. -/
theorem toggle_twice_people_roundtrip_witness :
    storedFileContent (c5Step 8 (c5Step 7 c5FreshStore)) "c1" "people.md" =
      storedFileContent c5FreshStore ("c1") "people.md" := by
  obtain ⟨s1, s2, h1, h2, h3, -, -⟩ :=
    toggle_twice_people_roundtrip c5FreshStore ("c1") "alice" 7 8 c5FreshCtx rfl
      (by decide) (by decide)
  have e1 : c5Step 7 c5FreshStore = s1 := by
    unfold c5Step
    rw [show toggle_contributor_selection c5FreshStore ("c1") "alice" 1 7 =
      Except.ok s1 from h1]
    rfl
  have e2 : c5Step 8 (c5Step 7 c5FreshStore) = s2 := by
    rw [e1]
    unfold c5Step
    rw [show toggle_contributor_selection s1 ("c1") "alice" 1 8 =
      Except.ok s2 from h2]
    rfl
  rw [e2]
  exact h3

end ContextMarketplace
